import Mathlib

/-!
Verification of the binance market-data pipeline (C++ sources) against its
natural-language specification.

Shallow embedding conventions:
* C++ `double` values are modelled as exact rationals (`ℚ`); the claims under
  study are about exact arithmetic relationships (accumulator thresholds,
  rounding to tick multiples, totals), not about IEEE-754 rounding.
* `std::map<double, V>` is modelled as an association list `List (ℚ × V)`
  kept sorted by key ascending, matching iteration order of `std::map`.
* `size_t` indices of the byte ring are modelled as `ℕ`; the stored indices
  are always reduced modulo the capacity (as in the source, which stores
  `(head + to_write) % capacity_`), so the `size_t` wraparound at `2^64`
  is unreachable under the stated invariants `head < C`, `tail < C`.
* Stateful member functions become pure functions `state → input → state × output`.
-/

namespace Binance

/-! ## Byte ring buffer (`src/mmap_buffer.cpp`, `src/mmap_buffer.hpp`) -/

/-- State of `MMapBuffer`: fixed capacity, byte storage, producer index
`head`, consumer index `tail`, and the `read_only_` flag. -/
structure MMapBuffer where
  capacity : ℕ
  buffer : List ℕ
  head : ℕ
  tail : ℕ
  read_only : Bool
  deriving Repr, DecidableEq

/-- Embeds `std::memcpy(buffer + off, data, data.length)`: writes the bytes of
`data` into `b` starting at index `off` (positions past the end of `b` are
dropped, which never happens under the bounds used by `write`). -/
def setRange (b : List ℕ) (off : ℕ) : List ℕ → List ℕ
  | [] => b
  | x :: xs => setRange (b.set off x) (off + 1) xs

/-- Embeds `MMapBuffer::write` (src/mmap_buffer.cpp lines 21-43): refuses in
read-only mode, computes the free space `(tail + C - head - 1) % C`, accepts
`min(len, space)` bytes, copies them in at most two chunks (wraparound), and
publishes the new head `(head + to_write) % C`. Returns the accepted count
and the new state. -/
def MMapBuffer.write (s : MMapBuffer) (data : List ℕ) : ℕ × MMapBuffer :=
  if s.read_only then (0, s)
  else
    let C := s.capacity
    let space := (s.tail + C - s.head - 1) % C
    let to_write := min data.length space
    let first_chunk := min to_write (C - s.head % C)
    let buf1 := setRange s.buffer (s.head % C) (data.take first_chunk)
    let second_chunk := to_write - first_chunk
    let buf2 := if second_chunk > 0 then setRange buf1 0 ((data.drop first_chunk).take second_chunk) else buf1
    (to_write, { s with buffer := buf2, head := (s.head + to_write) % C })

theorem length_setRange (d : List ℕ) (b : List ℕ) (off : ℕ) :
    (setRange b off d).length = b.length := by
  induction d generalizing b off with
  | nil => rfl
  | cons x xs ih => simpa [setRange] using ih (b.set off x) (off + 1)

theorem setRange_get_out (d : List ℕ) (b : List ℕ) (off : ℕ) :
    ∀ j, (j < off ∨ off + d.length ≤ j) → (setRange b off d).get? j = b.get? j := by
  induction d generalizing b off with
  | nil => intro j _; rfl
  | cons x xs ih =>
    intro j hj
    have hrec : (setRange (b.set off x) (off + 1) xs).get? j = (b.set off x).get? j := by
      apply ih
      simp at hj; omega
    simp only [setRange]
    rw [hrec, List.get?_set_ne]
    simp at hj; omega

theorem setRange_get_in (d : List ℕ) (b : List ℕ) (off : ℕ)
    (hle : off + d.length ≤ b.length) :
    ∀ i, i < d.length → (setRange b off d).get? (off + i) = d.get? i := by
  induction d generalizing b off with
  | nil => intro i hi; simp at hi
  | cons x xs ih =>
    intro i hi
    match i with
    | 0 =>
      have hoff : off < b.length := by simp at hle; omega
      have h2 : (setRange (b.set off x) (off + 1) xs).get? off = (b.set off x).get? off := by
        apply setRange_get_out
        omega
      simp only [setRange, Nat.add_zero]
      rw [h2, List.get?_set_eq_of_lt _ hoff]
      rfl
    | j + 1 =>
      have hj : j < xs.length := by simp at hi; omega
      have hrec := ih (b.set off x) (off + 1) (by simp only [List.length_set]; simp at hle ⊢; omega) j hj
      simp only [setRange]
      have harr : off + (j + 1) = off + 1 + j := by omega
      rw [harr, hrec]
      rfl

/-- The free-space computation of the source, `(tail + C - head - 1) % C`,
equals the specification formula `C - 1 - ((head - tail) mod C)` (with the
mathematical, nonnegative mod) whenever both indices are reduced mod `C`. -/
theorem ring_space_char (C head tail : ℕ) (hC : 0 < C) (hh : head < C) (ht : tail < C) :
    (((tail + C - head - 1) % C : ℕ) : ℤ) = (C : ℤ) - 1 - (((head : ℤ) - tail) % C) := by
  rcases le_or_lt tail head with hle | hlt
  · have h1 : (tail + C - head - 1) % C = tail + C - head - 1 := Nat.mod_eq_of_lt (by omega)
    have h2 : ((head : ℤ) - tail) % C = (head : ℤ) - tail :=
      Int.emod_eq_of_lt (by omega) (by omega)
    rw [h1, h2]
    omega
  · have h1 : tail + C - head - 1 = C + (tail - head - 1) := by omega
    have h3 : ((head : ℤ) - tail) % C = (head : ℤ) - tail + C := by
      have e1 : ((head : ℤ) - tail) % C = ((head : ℤ) - tail + C * 1) % C :=
        (Int.add_mul_emod_self_left _ _ _).symm
      rw [e1]
      have e2 : (head : ℤ) - tail + C * 1 = (head : ℤ) - tail + C := by ring
      rw [e2]
      exact Int.emod_eq_of_lt (by omega) (by omega)
    rw [h1, Nat.add_mod_left, Nat.mod_eq_of_lt (by omega), h3]
    omega

/-- C5: a `write(buf)` call on a writable ring with reduced indices accepts
exactly `min(len(buf), C − 1 − ((head − tail) mod C))` bytes, copies them to
positions `(head + i) % C` (the two-memcpy wraparound split), leaves all other
bytes and the tail untouched, and advances the head by the accepted count. -/
theorem c5_write_accepts_min_space (C head tail : ℕ) (buf data : List ℕ)
    (hC : 0 < C) (hlen : buf.length = C) (hh : head < C) (ht : tail < C) :
    (((MMapBuffer.mk C buf head tail false).write data).1 : ℤ)
        = min (data.length : ℤ) ((C : ℤ) - 1 - (((head : ℤ) - (tail : ℤ)) % (C : ℤ))) ∧
    ((MMapBuffer.mk C buf head tail false).write data).2.head
        = (head + ((MMapBuffer.mk C buf head tail false).write data).1) % C ∧
    ((MMapBuffer.mk C buf head tail false).write data).2.tail = tail ∧
    ((MMapBuffer.mk C buf head tail false).write data).2.buffer.length = C ∧
    (∀ i, i < ((MMapBuffer.mk C buf head tail false).write data).1 →
      ((MMapBuffer.mk C buf head tail false).write data).2.buffer.get? ((head + i) % C)
        = data.get? i) ∧
    (∀ j, j < C → (∀ i, i < ((MMapBuffer.mk C buf head tail false).write data).1 →
        j ≠ (head + i) % C) →
      ((MMapBuffer.mk C buf head tail false).write data).2.buffer.get? j = buf.get? j) := by
  have hheadmod : head % C = head := Nat.mod_eq_of_lt hh
  set sp := (tail + C - head - 1) % C with hsp
  set tw := min data.length sp with htw
  set fc := min tw (C - head % C) with hfc
  set sc := tw - fc with hsc
  set buf1 := setRange buf (head % C) (data.take fc) with hbuf1
  set buf2 := (if sc > 0 then setRange buf1 0 ((data.drop fc).take sc) else buf1) with hbuf2
  have hw : (MMapBuffer.mk C buf head tail false).write data
      = (tw, MMapBuffer.mk C buf2 ((head + tw) % C) tail false) := rfl
  have hsp_lt : sp < C := by rw [hsp]; exact Nat.mod_lt _ hC
  have htw_len : tw ≤ data.length := min_le_left _ _
  have htw_sp : tw ≤ sp := min_le_right _ _
  have hfc_le : fc ≤ tw := min_le_left _ _
  have hfc_head : head + fc ≤ C := by
    have := min_le_right tw (C - head % C)
    rw [hheadmod] at this
    omega
  have hfceq_of_pos : 0 < sc → fc = C - head := by
    intro hpos
    rw [hfc, hheadmod]
    rcases le_total tw (C - head) with hle | hle
    · exfalso
      rw [hfc, hheadmod, min_eq_left hle] at hsc
      omega
    · exact min_eq_right hle
  have hsc_bound : 0 < sc → sc ≤ head - 1 := by
    intro hpos
    have := hfceq_of_pos hpos
    omega
  have hlen_take : (data.take fc).length = fc := by
    rw [List.length_take]
    omega
  have hbuf1len : buf1.length = C := by rw [hbuf1, length_setRange, hlen]
  have hlen_take2 : ((data.drop fc).take sc).length = sc := by
    rw [List.length_take, List.length_drop]
    omega
  have hbuf2len : buf2.length = C := by
    rw [hbuf2]
    split
    · rw [length_setRange, hbuf1len]
    · exact hbuf1len
  rw [hw]
  refine ⟨?_, rfl, rfl, hbuf2len, ?_, ?_⟩
  · have hchar := ring_space_char C head tail hC hh ht
    rw [htw]
    push_cast [Nat.cast_min]
    rw [hsp, hchar]
  · intro i hi
    rcases Nat.lt_or_ge i fc with hifc | hifc
    · have hpos : (head + i) % C = head + i := Nat.mod_eq_of_lt (by omega)
      have houter : buf2.get? (head + i) = buf1.get? (head + i) := by
        rw [hbuf2]
        split
        next hscpos =>
          apply setRange_get_out
          right
          rw [hlen_take2]
          have := hsc_bound hscpos
          omega
        next => rfl
      have hinner : buf1.get? (head + i) = (data.take fc).get? i := by
        have h := setRange_get_in (data.take fc) buf (head % C)
          (by rw [hlen_take, hheadmod, hlen]; omega) i (by rw [hlen_take]; exact hifc)
        rw [hheadmod] at h
        rw [hbuf1, hheadmod]
        exact h
      rw [hpos, houter, hinner, List.get?_eq_getElem?, List.get?_eq_getElem?,
        List.getElem?_take_of_lt hifc]
    · have hscpos : 0 < sc := by omega
      have hfceq := hfceq_of_pos hscpos
      have hscb := hsc_bound hscpos
      have hpos : (head + i) % C = i - fc := by
        have h1 : head + i = C + (i - fc) := by omega
        rw [h1, Nat.add_mod_left, Nat.mod_eq_of_lt (by omega)]
      have houter : buf2.get? (i - fc) = ((data.drop fc).take sc).get? (i - fc) := by
        rw [hbuf2, if_pos hscpos]
        have h := setRange_get_in ((data.drop fc).take sc) buf1 0
          (by rw [hlen_take2, hbuf1len]; omega) (i - fc) (by rw [hlen_take2]; omega)
        simpa using h
      rw [hpos, houter, List.get?_eq_getElem?, List.get?_eq_getElem?,
        List.getElem?_take_of_lt (by omega), List.getElem?_drop]
      congr 1
      omega
  · intro j hj hnot
    have hjn1 : j < head ∨ head + fc ≤ j := by
      by_contra hcon
      push_neg at hcon
      obtain ⟨h1, h2⟩ := hcon
      exact hnot (j - head) (by omega) (by rw [Nat.mod_eq_of_lt (by omega)]; omega)
    have hinner : buf1.get? j = buf.get? j := by
      rw [hbuf1]
      apply setRange_get_out
      rw [hlen_take, hheadmod]
      omega
    rw [hbuf2]
    split
    next hscpos =>
      have hfceq := hfceq_of_pos hscpos
      have hjn2 : sc ≤ j := by
        by_contra hcon
        push_neg at hcon
        refine hnot (fc + j) (by omega) ?_
        have h1 : head + (fc + j) = C + j := by omega
        rw [h1, Nat.add_mod_left, Nat.mod_eq_of_lt (by omega)]
      have houter : (setRange buf1 0 ((data.drop fc).take sc)).get? j = buf1.get? j := by
        apply setRange_get_out
        rw [hlen_take2]
        omega
      rw [houter, hinner]
    next => exact hinner

/-- Witness for C5 at a concrete wrapping input: capacity 4, head 3, tail 2. -/
theorem c5_write_accepts_min_space_witness :
    0 < 4 ∧ ([0, 0, 0, 0] : List ℕ).length = 4 ∧ 3 < 4 ∧ 2 < 4 ∧
    (((MMapBuffer.mk 4 [0, 0, 0, 0] 3 2 false).write [7, 8, 9]).1 : ℤ)
      = min (([7, 8, 9] : List ℕ).length : ℤ) ((4 : ℤ) - 1 - (((3 : ℤ) - (2 : ℤ)) % (4 : ℤ))) :=
  ⟨by decide, by decide, by decide, by decide,
    (c5_write_accepts_min_space 4 3 2 [0, 0, 0, 0] [7, 8, 9]
      (by decide) (by decide) (by decide) (by decide)).1⟩

/-- C10: writing to a read-only buffer returns 0 and changes nothing. -/
theorem c10_readonly_write_noop (s : MMapBuffer) (data : List ℕ)
    (h : s.read_only = true) : s.write data = (0, s) := by
  simp [MMapBuffer.write, h]

/-- Witness for C10 at a concrete read-only buffer. -/
theorem c10_readonly_write_noop_witness :
    (MMapBuffer.mk 4 [0, 0, 0, 0] 1 2 true).read_only = true ∧
    (MMapBuffer.mk 4 [0, 0, 0, 0] 1 2 true).write [5, 6]
      = (0, MMapBuffer.mk 4 [0, 0, 0, 0] 1 2 true) :=
  ⟨rfl, c10_readonly_write_noop (MMapBuffer.mk 4 [0, 0, 0, 0] 1 2 true) [5, 6] rfl⟩

/-! ## Ordered and unordered map embeddings

`std::map<double, V>` is modelled as an association list sorted by key
ascending (matching its iteration order); `std::unordered_map<std::string, V>`
as a plain association list (never iterated by the code under study). -/

/-- Embeds `std::map::operator[] = v` (insert or overwrite), keeping keys
sorted ascending. -/
def mapSet {α : Type} (m : List (ℚ × α)) (k : ℚ) (v : α) : List (ℚ × α) :=
  match m with
  | [] => [(k, v)]
  | (k1, v1) :: t =>
    if k < k1 then (k, v) :: (k1, v1) :: t
    else if k = k1 then (k, v) :: t
    else (k1, v1) :: mapSet t k v

/-- Embeds `std::map::find` / `count`. -/
def mapLookup {α : Type} (m : List (ℚ × α)) (k : ℚ) : Option α :=
  match m with
  | [] => none
  | (k1, v1) :: t => if k = k1 then some v1 else mapLookup t k

/-- Embeds `std::map::erase(key)`. -/
def mapErase {α : Type} (m : List (ℚ × α)) (k : ℚ) : List (ℚ × α) :=
  match m with
  | [] => []
  | (k1, v1) :: t => if k = k1 then t else (k1, v1) :: mapErase t k

/-- Embeds `std::unordered_map<std::string, V>::operator[] = v`. -/
def sset {α : Type} (m : List (String × α)) (k : String) (v : α) : List (String × α) :=
  match m with
  | [] => [(k, v)]
  | (k1, v1) :: t => if k = k1 then (k, v) :: t else (k1, v1) :: sset t k v

/-- Embeds `std::unordered_map<std::string, V>::find`. -/
def slookup {α : Type} (m : List (String × α)) (k : String) : Option α :=
  match m with
  | [] => none
  | (k1, v1) :: t => if k = k1 then some v1 else slookup t k

theorem mapLookup_mapSet_self {α : Type} (m : List (ℚ × α)) (k : ℚ) (v : α) :
    mapLookup (mapSet m k v) k = some v := by
  induction m with
  | nil => simp [mapSet, mapLookup]
  | cons h t ih =>
    obtain ⟨k1, v1⟩ := h
    by_cases h1 : k < k1
    · simp [mapSet, mapLookup, h1]
    · by_cases h2 : k = k1
      · simp [mapSet, mapLookup, h1, h2]
      · simp [mapSet, mapLookup, h1, h2, ih]

theorem slookup_sset_self {α : Type} (m : List (String × α)) (k : String) (v : α) :
    slookup (sset m k v) k = some v := by
  induction m with
  | nil => simp [sset, slookup]
  | cons h t ih =>
    obtain ⟨k1, v1⟩ := h
    by_cases h1 : k = k1
    · simp [sset, slookup, h1]
    · simp [sset, slookup, h1, ih]

/-! ## Market-data records (`core/serialization.hpp`, reconstructed from use sites)

The header declaring `PriceLevel`, `OrderBookUpdate` and `TradeMessageBinary`
is not in the sources, but every field is pinned down by its uses in
`src/serialization.cpp`, `src/iceberg_detector.cpp` and the trackers, and by
the data model of the specification (section 3). -/

/-- A `(price, quantity)` book level; `double` modelled as `ℚ`. -/
structure PriceLevel where
  price : ℚ
  quantity : ℚ
  deriving Repr, DecidableEq

/-- The deserialized depth update fanned out to the consumers. -/
structure OrderBookUpdate where
  timestamp_ns : ℕ
  last_update_id : ℕ
  bids : List PriceLevel
  asks : List PriceLevel
  deriving Repr, DecidableEq

/-! ## Iceberg detector (`src/iceberg_detector.cpp`, `src/IcebergDetector.hpp`) -/

/-- Per-(symbol, price) tracking state (`IcebergDetector.hpp` lines 10-13). -/
structure IcebergLevelState where
  last_quantity : ℚ
  iceberg_counter : ℕ
  deriving Repr, DecidableEq

/-- The `book_state_` member: symbol → price → level state. -/
abbrev IcebergState : Type := List (String × List (ℚ × IcebergLevelState))

/-- An emitted `[ICEBERG DETECTED]` event (`emit_iceberg_event`). -/
structure IcebergEvent where
  symbol : String
  price : ℚ
  is_bid : Bool
  deriving Repr, DecidableEq

/-- Reads `book_state_[symbol][price]`, default-constructing missing entries
exactly as `operator[]` does. -/
def levelStateOf (st : IcebergState) (symbol : String) (price : ℚ) : IcebergLevelState :=
  (mapLookup ((slookup st symbol).getD []) price).getD ⟨0, 0⟩

/-- Embeds `IcebergDetector::detect_iceberg` (src/iceberg_detector.cpp lines
23-39): on a decrease to a still-positive quantity the counter is incremented
and, at 3, an event is emitted and the counter reset; any other observation
resets the counter; `last_quantity` is then set to the observed quantity. -/
def detect_iceberg (st : IcebergState) (symbol : String) (price qty : ℚ) (is_bid : Bool) :
    IcebergState × List IcebergEvent :=
  let symMap := (slookup st symbol).getD []
  let ls := (mapLookup symMap price).getD ⟨0, 0⟩
  let step : IcebergLevelState × List IcebergEvent :=
    if qty < ls.last_quantity ∧ qty > 0 then
      if ls.iceberg_counter + 1 ≥ 3 then
        (⟨ls.last_quantity, 0⟩, [⟨symbol, price, is_bid⟩])
      else
        (⟨ls.last_quantity, ls.iceberg_counter + 1⟩, [])
    else
      (⟨ls.last_quantity, 0⟩, [])
  let ls2 : IcebergLevelState := ⟨qty, step.1.iceberg_counter⟩
  (sset st symbol (mapSet symMap price ls2), step.2)

/-- Embeds `IcebergDetector::process_update` (lines 9-21): all bid levels are
examined first, then all ask levels, under the fixed symbol `BTCUSDT`. -/
def iceberg_process_update (st : IcebergState) (update : OrderBookUpdate) :
    IcebergState × List IcebergEvent :=
  let stepSide (acc : IcebergState × List IcebergEvent) (l : PriceLevel) (is_bid : Bool) :
      IcebergState × List IcebergEvent :=
    let r := detect_iceberg acc.1 "BTCUSDT" l.price l.quantity is_bid
    (r.1, acc.2 ++ r.2)
  let afterBids := update.bids.foldl (fun acc l => stepSide acc l true) (st, [])
  update.asks.foldl (fun acc l => stepSide acc l false) afterBids

/-- Runs the detector over a stream of book updates, concatenating emissions. -/
def iceberg_run (st : IcebergState) (upds : List OrderBookUpdate) :
    IcebergState × List IcebergEvent :=
  upds.foldl (fun acc u =>
    let r := iceberg_process_update acc.1 u
    (r.1, acc.2 ++ r.2)) (st, [])

/-- A stream of single-level ask updates at price 30000, one per observed
quantity (scenario C of the specification). -/
def askObservations (qs : List ℚ) : List OrderBookUpdate :=
  qs.map (fun q => ⟨0, 0, [], [⟨30000, q⟩]⟩)

/-- C3: one observation of a tracked level. If `0 < qty < last_quantity` the
counter is incremented, otherwise it is reset to 0; an event for
`(symbol, price, side)` is emitted exactly when the incremented counter
reaches 3 (i.e. the stored counter was 2), and the counter is then reset;
`last_quantity` is set to `qty`. The stored counter never exceeds 2. -/
theorem c3_iceberg_observation (st : IcebergState) (sym : String) (price qty : ℚ)
    (is_bid : Bool) (hc : (levelStateOf st sym price).iceberg_counter ≤ 2) :
    (detect_iceberg st sym price qty is_bid).2
      = (if 0 < qty ∧ qty < (levelStateOf st sym price).last_quantity ∧
            (levelStateOf st sym price).iceberg_counter = 2
         then [⟨sym, price, is_bid⟩] else []) ∧
    levelStateOf (detect_iceberg st sym price qty is_bid).1 sym price
      = ⟨qty,
         if 0 < qty ∧ qty < (levelStateOf st sym price).last_quantity then
           (if (levelStateOf st sym price).iceberg_counter = 2 then 0
            else (levelStateOf st sym price).iceberg_counter + 1)
         else 0⟩ ∧
    (levelStateOf (detect_iceberg st sym price qty is_bid).1 sym price).iceberg_counter ≤ 2 := by
  have hlook : levelStateOf (detect_iceberg st sym price qty is_bid).1 sym price
      = ⟨qty, (if qty < (levelStateOf st sym price).last_quantity ∧ qty > 0 then
          (if (levelStateOf st sym price).iceberg_counter + 1 ≥ 3 then 0
           else (levelStateOf st sym price).iceberg_counter + 1)
         else 0)⟩ := by
    simp only [detect_iceberg, levelStateOf]
    rw [slookup_sset_self, Option.getD_some, mapLookup_mapSet_self, Option.getD_some]
    split_ifs <;> rfl
  have hev : (detect_iceberg st sym price qty is_bid).2
      = (if qty < (levelStateOf st sym price).last_quantity ∧ qty > 0 then
          (if (levelStateOf st sym price).iceberg_counter + 1 ≥ 3
           then [⟨sym, price, is_bid⟩] else [])
         else []) := by
    simp only [detect_iceberg, levelStateOf]
    split_ifs <;> rfl
  by_cases hq : qty < (levelStateOf st sym price).last_quantity ∧ qty > 0
  · by_cases h2 : (levelStateOf st sym price).iceberg_counter = 2
    · have hge : (levelStateOf st sym price).iceberg_counter + 1 ≥ 3 := by omega
      refine ⟨?_, ?_, ?_⟩
      · rw [hev, if_pos hq, if_pos hge, if_pos ⟨hq.2, hq.1, h2⟩]
      · rw [hlook, if_pos hq, if_pos hge, if_pos ⟨hq.2, hq.1⟩, if_pos h2]
      · rw [hlook]
        simp only [if_pos hq, if_pos hge]
        omega
    · have hge : ¬ (levelStateOf st sym price).iceberg_counter + 1 ≥ 3 := by omega
      have hncond : ¬ (0 < qty ∧ qty < (levelStateOf st sym price).last_quantity ∧
          (levelStateOf st sym price).iceberg_counter = 2) := by
        intro hcon
        exact h2 hcon.2.2
      refine ⟨?_, ?_, ?_⟩
      · rw [hev, if_pos hq, if_neg hge, if_neg hncond]
      · rw [hlook, if_pos hq, if_neg hge, if_pos ⟨hq.2, hq.1⟩, if_neg h2]
      · rw [hlook]
        simp only [if_pos hq, if_neg hge]
        omega
  · have hncond : ¬ (0 < qty ∧ qty < (levelStateOf st sym price).last_quantity ∧
        (levelStateOf st sym price).iceberg_counter = 2) := by
      intro hcon
      exact hq ⟨hcon.2.1, hcon.1⟩
    have hncond2 : ¬ (0 < qty ∧ qty < (levelStateOf st sym price).last_quantity) := by
      intro hcon
      exact hq ⟨hcon.2, hcon.1⟩
    refine ⟨?_, ?_, ?_⟩
    · rw [hev, if_neg hq, if_neg hncond]
    · rw [hlook, if_neg hq, if_neg hncond2]
    · rw [hlook]
      simp only [if_neg hq]
      omega

/-- Witness for C3 at a level whose counter is already 2: the third
consecutive decrease-without-vanish emits an event. -/
theorem c3_iceberg_observation_witness :
    (levelStateOf [("S", [(10, ⟨5, 2⟩)])] "S" 10).iceberg_counter ≤ 2 ∧
    (detect_iceberg [("S", [(10, ⟨5, 2⟩)])] "S" 10 3 true).2
      = (if 0 < (3 : ℚ) ∧ (3 : ℚ) < (levelStateOf [("S", [(10, ⟨5, 2⟩)])] "S" 10).last_quantity ∧
            (levelStateOf [("S", [(10, ⟨5, 2⟩)])] "S" 10).iceberg_counter = 2
         then [⟨"S", 10, true⟩] else []) :=
  ⟨by decide,
    (c3_iceberg_observation [("S", [(10, ⟨5, 2⟩)])] "S" 10 3 true (by decide)).1⟩

/-- C4 counterexample: on the quantity sequence `[5, 3, 5, 2, 5, 1]` at one
ask level the detector emits no event at all (each refill back to 5 resets the
counter), contradicting the claimed single emission. -/
theorem c4_counterexample :
    (iceberg_run [] (askObservations [5, 3, 5, 2, 5, 1])).2.length = 0 ∧
    ¬ (iceberg_run [] (askObservations [5, 3, 5, 2, 5, 1])).2.length = 1 := by
  decide

/-- C4 amended: the sequence `[5, 3, 5, 2, 5, 1]` produces no emission,
because each observed refill (increase) resets the consecutive counter; an
emission requires three consecutive decreases without the level vanishing, as
in `[5, 4, 3, 2]`, which emits exactly one ask event and resets the counter. -/
theorem c4_amended_no_emission_on_alternating_refills :
    (iceberg_run [] (askObservations [5, 3, 5, 2, 5, 1])).2 = [] ∧
    (iceberg_run [] (askObservations [5, 4, 3, 2])).2 = [⟨"BTCUSDT", 30000, false⟩] ∧
    (levelStateOf (iceberg_run [] (askObservations [5, 4, 3, 2])).1
      "BTCUSDT" 30000).iceberg_counter = 0 := by
  decide

/-! ## Depth-update parsing (`src/serialization.cpp`) -/

/-- A decoded `depthUpdate` JSON message as `parse_orderbook_json` reads it:
`Option` models an absent or null field (or a non-array where an array is
expected); each level row is the list of its numeric cells after `stod`, and
rows with fewer than two cells are skipped by the source. -/
structure DepthMsgWire where
  e : Option String
  ev_time : Option ℕ
  u : Option ℕ
  b : Option (List (List ℚ))
  a : Option (List (List ℚ))
  deriving Repr, DecidableEq

/-- Embeds the level-collection loops of `parse_orderbook_json` (lines 93-120):
rows of length ≥ 2 yield `(price, quantity)`; quantity 0 is the delete
sentinel and such rows are dropped (`if (quantity > 0)`). -/
def collect_levels : List (List ℚ) → List PriceLevel
  | [] => []
  | row :: t =>
    match row with
    | p :: q :: _ => if q > 0 then ⟨p, q⟩ :: collect_levels t else collect_levels t
    | _ => collect_levels t

/-- Embeds `Serialization::parse_orderbook_json` (src/serialization.cpp lines
67-127): requires event type `depthUpdate`, converts the millisecond event
time to nanoseconds with a local-clock fallback (`now_ns`) when absent, and
collects the positive-quantity levels of both sides. -/
def parse_orderbook_json (now_ns : ℕ) (m : DepthMsgWire) : Option OrderBookUpdate :=
  if m.e = some "depthUpdate" then
    let ts0 := m.ev_time.getD 0 * 1000000
    some { timestamp_ns := if ts0 = 0 then now_ns else ts0
         , last_update_id := m.u.getD 0
         , bids := collect_levels (m.b.getD [])
         , asks := collect_levels (m.a.getD []) }
  else none

theorem collect_levels_pos (rows : List (List ℚ)) :
    ∀ l ∈ collect_levels rows, 0 < l.quantity := by
  induction rows with
  | nil => simp [collect_levels]
  | cons r t ih =>
    match r with
    | [] => simpa [collect_levels] using ih
    | [p] => simpa [collect_levels] using ih
    | p :: q :: rest =>
      by_cases hq : q > 0
      · intro l hl
        rw [collect_levels] at hl
        simp only [hq, if_true, List.mem_cons] at hl
        rcases hl with hl | hl
        · rw [hl]; exact hq
        · exact ih l hl
      · intro l hl
        rw [collect_levels] at hl
        simp only [hq, if_false] at hl
        exact ih l hl

/-- C9: every update returned by `parse_orderbook_json` carries only levels
with strictly positive quantity; zero-quantity delete sentinels are dropped
before the update reaches the iceberg detector or the liquidity tracker. -/
theorem c9_parsed_levels_positive (now_ns : ℕ) (m : DepthMsgWire) (upd : OrderBookUpdate)
    (h : parse_orderbook_json now_ns m = some upd) :
    (∀ l ∈ upd.bids, 0 < l.quantity) ∧ (∀ l ∈ upd.asks, 0 < l.quantity) := by
  rw [parse_orderbook_json] at h
  by_cases he : m.e = some "depthUpdate"
  · rw [if_pos he] at h
    have hu := Option.some.inj h
    constructor
    · intro l hl
      rw [← hu] at hl
      exact collect_levels_pos _ l hl
    · intro l hl
      rw [← hu] at hl
      exact collect_levels_pos _ l hl
  · rw [if_neg he] at h
    exact absurd h (by simp)

/-- Witness for C9 on a message containing a zero-quantity delete sentinel. -/
theorem c9_parsed_levels_positive_witness :
    parse_orderbook_json 0
        ⟨some "depthUpdate", some 1700000000000, some 101,
          some [[10, 1], [9, 0]], some [[11, 3]]⟩
      = some ⟨1700000000000 * 1000000, 101, [⟨10, 1⟩], [⟨11, 3⟩]⟩ ∧
    (∀ l ∈ ([⟨10, 1⟩] : List PriceLevel), 0 < l.quantity) ∧
    (∀ l ∈ ([⟨11, 3⟩] : List PriceLevel), 0 < l.quantity) := by
  refine ⟨by decide, ?_⟩
  have h := c9_parsed_levels_positive 0
    ⟨some "depthUpdate", some 1700000000000, some 101,
      some [[10, 1], [9, 0]], some [[11, 3]]⟩
    ⟨1700000000000 * 1000000, 101, [⟨10, 1⟩], [⟨11, 3⟩]⟩ (by decide)
  exact h

/-! ## Order book keeper (`src/binance_orderbook_w1.cpp`)

A book side is `std::map<double, std::pair<double, std::string>>`
(price → (quantity, source tag)), modelled as a sorted association list. -/

/-- One side of the book: price → (quantity, source tag). -/
abbrev BookSide : Type := List (ℚ × (ℚ × String))

/-- The mutable state of `BinanceOrderBook` relevant to book maintenance. -/
structure Book where
  bids : BookSide
  asks : BookSide
  last_update_id : ℕ
  tick_size : ℚ

/-- `std::round`: round half away from zero. -/
def roundHalfAway (x : ℚ) : ℤ :=
  if 0 ≤ x then ⌊x + (1 : ℚ)/2⌋ else ⌈x - (1 : ℚ)/2⌉

/-- Embeds `BinanceOrderBook::round_to_tick_size` (lines 250-253). -/
def round_to_tick_size (tick price : ℚ) : ℚ :=
  if |tick| < 1/1000000000 then price
  else (roundHalfAway (price / tick) : ℚ) * tick

/-- An incoming `depthUpdate` diff: `U` = first update id, `u` = last update
id, and the two level arrays (price, quantity after `stod`). -/
structure DepthDiff where
  U : ℕ
  u : ℕ
  b : List (ℚ × ℚ)
  a : List (ℚ × ℚ)

/-- A REST depth snapshot: `lastUpdateId` and the two level arrays. -/
structure Snapshot where
  lastUpdateId : ℕ
  bids : List (ℚ × ℚ)
  asks : List (ℚ × ℚ)

/-- How `process_ws_update` disposed of a diff: dropped as old, applied, or
rejected with a snapshot refetch (`Order book out of sync`). -/
inductive WsOutcome where
  | skipped
  | applied
  | resync
  deriving Repr, DecidableEq

/-- Embeds the per-level loops of `process_ws_update` (lines 439-465): round
the price to the tick, then set the quantity (source tag `WS`) if positive,
else erase the level. -/
def applyDiffSide (tick : ℚ) (side : BookSide) (levels : List (ℚ × ℚ)) : BookSide :=
  levels.foldl (fun m l =>
    let price := round_to_tick_size tick l.1
    if l.2 > 0 then mapSet m price (l.2, "WS") else mapErase m price) side

/-- Embeds `BinanceOrderBook::process_ws_update` (lines 402-482): a diff with
`u ≤ last_update_id` is skipped; one with `U ≤ last_update_id + 1` is applied
(levels merged, `last_update_id := u`); otherwise the book is out of sync and
a snapshot refetch is triggered. -/
def process_ws_update (b : Book) (d : DepthDiff) : WsOutcome × Book :=
  if d.u ≤ b.last_update_id then (.skipped, b)
  else if d.U ≤ b.last_update_id + 1 then
    (.applied,
      { b with
        bids := applyDiffSide b.tick_size b.bids d.b
        asks := applyDiffSide b.tick_size b.asks d.a
        last_update_id := d.u })
  else (.resync, b)

/-- Embeds the snapshot install of `process_api_snapshot` (lines 330-359):
clear both sides, insert the rounded positive-quantity levels with source tag
`API`, and store the snapshot id. -/
def installSide (tick : ℚ) (levels : List (ℚ × ℚ)) : BookSide :=
  levels.foldl (fun m l =>
    let price := round_to_tick_size tick l.1
    if l.2 > 0 then mapSet m price (l.2, "API") else m) []

/-- Embeds `BinanceOrderBook::process_api_snapshot` (book mutation part). -/
def process_api_snapshot (b : Book) (s : Snapshot) : Book :=
  { b with
    bids := installSide b.tick_size s.bids
    asks := installSide b.tick_size s.asks
    last_update_id := s.lastUpdateId }

/-- Fold of `max` over the keys, starting from the source's
`double best_bid = 0` default; on the sorted sides built by the code this is
exactly `bids.rbegin()->first` (or 0 for an empty side). -/
def keysMaxFrom (acc : ℚ) : BookSide → ℚ
  | [] => acc
  | e :: t => keysMaxFrom (max acc e.1) t

/-- The `best_bid` computed at the top of the sweep in `print_orderbook`. -/
def bestBidOf (m : BookSide) : ℚ := keysMaxFrom 0 m

/-- Embeds the stale-bid sweep of `print_orderbook` (lines 630-640): if
`best_bid > 0`, erase every bid priced strictly below `best_bid * 0.95`. -/
def staleBidSweep (m : BookSide) : BookSide :=
  if 0 < bestBidOf m then
    m.filter (fun e => decide (¬ e.1 < bestBidOf m * (95/100)))
  else m

/-- Book mutation performed by `print_orderbook` (lines 610-742): when
auto-print is disabled the function returns before the sweep (line 615);
otherwise the stale-bid sweep runs on the bid side. -/
def print_orderbook (autoPrint : Bool) (b : Book) : Book :=
  if autoPrint then { b with bids := staleBidSweep b.bids } else b

/-- `process_ws_update` followed by the `print_orderbook()` call that the
applied branch makes (line 472). -/
def process_ws_update_full (autoPrint : Bool) (b : Book) (d : DepthDiff) :
    WsOutcome × Book :=
  let r := process_ws_update b d
  match r.1 with
  | .applied => (.applied, print_orderbook autoPrint r.2)
  | o => (o, r.2)

/-- `process_api_snapshot` followed by its `print_orderbook()` call (line 362). -/
def process_api_snapshot_full (autoPrint : Bool) (b : Book) (s : Snapshot) : Book :=
  print_orderbook autoPrint (process_api_snapshot b s)

/-- C1 counterexample: from a book at `last_update_id = 100`, the diff
`{U:101, u:103}` and then the overlapping diff `{U:100, u:110}` are both
applied, yet `100 ≠ 103 + 1`: applied adjacency does not require
`first_update_id = prev_last_update_id + 1`. -/
theorem c1_counterexample :
    (process_ws_update ⟨[], [], 100, 1/100⟩ ⟨101, 103, [], []⟩).1 = WsOutcome.applied ∧
    (process_ws_update (process_ws_update ⟨[], [], 100, 1/100⟩ ⟨101, 103, [], []⟩).2
        ⟨100, 110, [], []⟩).1 = WsOutcome.applied ∧
    (process_ws_update ⟨[], [], 100, 1/100⟩ ⟨101, 103, [], []⟩).2.last_update_id = 103 ∧
    ¬ ((100 : ℕ) = 103 + 1) := by
  decide

/-- C1 amended: a diff is applied iff `last_update_id < u` and
`U ≤ last_update_id + 1` (Binance-style overlap is admitted, not the strict
`U = prev + 1`); it triggers a re-sync iff `last_update_id < u` and
`last_update_id + 1 < U`; an applied diff sets `last_update_id := u`. Hence
two adjacently applied diffs `d₁, d₂` satisfy `d₂.U ≤ d₁.u + 1 < d₂.u + 1`,
and a gapped diff (`U > prev + 1`, not superseded) is never applied and
requests a snapshot refetch. -/
theorem c1_amended_diff_sequencing (b : Book) (d d2 : DepthDiff) :
    ((process_ws_update b d).1 = WsOutcome.applied ↔
      (b.last_update_id < d.u ∧ d.U ≤ b.last_update_id + 1)) ∧
    ((process_ws_update b d).1 = WsOutcome.resync ↔
      (b.last_update_id < d.u ∧ b.last_update_id + 1 < d.U)) ∧
    ((process_ws_update b d).1 = WsOutcome.skipped ↔ d.u ≤ b.last_update_id) ∧
    ((process_ws_update b d).1 = WsOutcome.applied →
      (process_ws_update b d).2.last_update_id = d.u) ∧
    ((process_ws_update b d).1 = WsOutcome.applied →
      (process_ws_update (process_ws_update b d).2 d2).1 = WsOutcome.applied →
      (d2.U ≤ d.u + 1 ∧ d.u < d2.u)) := by
  have hchar : ∀ (bk : Book) (df : DepthDiff),
      ((process_ws_update bk df).1 = WsOutcome.applied ↔
        (bk.last_update_id < df.u ∧ df.U ≤ bk.last_update_id + 1)) ∧
      ((process_ws_update bk df).1 = WsOutcome.resync ↔
        (bk.last_update_id < df.u ∧ bk.last_update_id + 1 < df.U)) ∧
      ((process_ws_update bk df).1 = WsOutcome.skipped ↔ df.u ≤ bk.last_update_id) ∧
      ((process_ws_update bk df).1 = WsOutcome.applied →
        (process_ws_update bk df).2.last_update_id = df.u) := by
    intro bk df
    rw [process_ws_update]
    split_ifs with h1 h2 <;>
      refine ⟨?_, ?_, ?_, ?_⟩ <;>
      simp_all
  refine ⟨(hchar b d).1, (hchar b d).2.1, (hchar b d).2.2.1, (hchar b d).2.2.2, ?_⟩
  intro h1 h2
  have hu := (hchar b d).2.2.2 h1
  have h2c := ((hchar _ d2).1).mp h2
  rw [hu] at h2c
  exact ⟨h2c.2, h2c.1⟩

/-- Witness for C1: two concrete adjacently applied diffs satisfy the amended
adjacency bounds. -/
theorem c1_amended_diff_sequencing_witness :
    (104 : ℕ) ≤ 103 + 1 ∧ (103 : ℕ) < 110 :=
  (c1_amended_diff_sequencing ⟨[], [], 100, 1/100⟩ ⟨101, 103, [], []⟩
      ⟨104, 110, [], []⟩).2.2.2.2 (by decide) (by decide)

/-! ## Tick-size re-aggregation (`set_tick_size`, lines 812-861) -/

/-- The `available_tick_sizes` member (line 231). -/
def availableTickSizes : List ℚ := [1/1000, 1/100, 1/10, 1, 10, 100]

/-- The validity scan of `set_tick_size` (lines 815-820):
`|new − size| < 1e-6` for some allowed size. -/
def isValidTick (t : ℚ) : Bool :=
  availableTickSizes.any (fun s => decide (|t - s| < 1/1000000))

/-- One step of the re-aggregation loop (lines 830-848): if the rounded price
already exists, add the quantity to it (keeping the existing source tag),
else insert the pair. -/
def aggInsert (acc : BookSide) (k : ℚ) (vs : ℚ × String) : BookSide :=
  match mapLookup acc k with
  | some old => mapSet acc k (old.1 + vs.1, old.2)
  | none => mapSet acc k vs

/-- Re-aggregation of one side under a new tick size. -/
def reaggSide (tick : ℚ) (m : BookSide) : BookSide :=
  m.foldl (fun acc e => aggInsert acc (round_to_tick_size tick e.1) e.2) []

/-- Embeds `BinanceOrderBook::set_tick_size` (lines 812-861): an invalid tick
leaves the book unchanged; a valid one is stored, both sides are re-aggregated
under it, and `print_orderbook()` is invoked (line 853), whose stale-bid sweep
runs when auto-print is enabled. -/
def set_tick_size (autoPrint : Bool) (b : Book) (t : ℚ) : Book :=
  if isValidTick t then
    print_orderbook autoPrint
      { b with
        tick_size := t
        bids := reaggSide t b.bids
        asks := reaggSide t b.asks }
  else b

/-- Total stored quantity of a side. -/
def sumQty (m : BookSide) : ℚ := (m.map (fun e => e.2.1)).sum

/-- Keys strictly increasing: the invariant of the sorted association lists
standing in for `std::map`. -/
def mapSorted {α : Type} (m : List (ℚ × α)) : Prop :=
  m.Pairwise (fun a b => a.1 < b.1)

theorem mem_mapSet {α : Type} (m : List (ℚ × α)) (k : ℚ) (v : α) :
    ∀ e ∈ mapSet m k v, e = (k, v) ∨ e ∈ m := by
  induction m with
  | nil => simp [mapSet]
  | cons h1 t ih =>
    obtain ⟨k1, v1⟩ := h1
    intro e he
    rw [mapSet] at he
    split_ifs at he with hc1 hc2
    · simp only [List.mem_cons] at he ⊢
      tauto
    · simp only [List.mem_cons] at he ⊢
      tauto
    · simp only [List.mem_cons] at he ⊢
      rcases he with he | he
      · tauto
      · rcases ih e he with h | h <;> tauto

theorem mapSet_sorted {α : Type} (m : List (ℚ × α)) (k : ℚ) (v : α)
    (h : mapSorted m) : mapSorted (mapSet m k v) := by
  induction m with
  | nil => simp [mapSet, mapSorted]
  | cons h1 t ih =>
    obtain ⟨k1, v1⟩ := h1
    rw [mapSorted, List.pairwise_cons] at h
    obtain ⟨hhead, htail⟩ := h
    rw [mapSet]
    split_ifs with hc1 hc2
    · rw [mapSorted, List.pairwise_cons]
      refine ⟨?_, ?_⟩
      · intro e he
        simp only [List.mem_cons] at he
        rcases he with he | he
        · rw [he]; exact hc1
        · exact hc1.trans (hhead e he)
      · rw [List.pairwise_cons]
        exact ⟨hhead, htail⟩
    · rw [mapSorted, List.pairwise_cons]
      refine ⟨?_, htail⟩
      intro e he
      rw [hc2]
      exact hhead e he
    · rw [mapSorted, List.pairwise_cons]
      refine ⟨?_, ih htail⟩
      intro e he
      rcases mem_mapSet t k v e he with he2 | he2
      · rw [he2]
        have : k1 < k := by
          rcases lt_trichotomy k k1 with h | h | h
          · exact absurd h hc1
          · exact absurd h hc2
          · exact h
        exact this
      · exact hhead e he2

theorem mapLookup_some_mem {α : Type} (m : List (ℚ × α)) (k : ℚ) (v : α)
    (h : mapLookup m k = some v) : (k, v) ∈ m := by
  induction m with
  | nil => simp [mapLookup] at h
  | cons h1 t ih =>
    obtain ⟨k1, v1⟩ := h1
    rw [mapLookup] at h
    split_ifs at h with hc
    · simp only [Option.some.injEq] at h
      rw [hc, h]
      exact List.mem_cons_self _ _
    · exact List.mem_cons_of_mem _ (ih h)

theorem sumQty_mapSet_none (m : BookSide) (k : ℚ) (v : ℚ × String)
    (h : mapLookup m k = none) : sumQty (mapSet m k v) = sumQty m + v.1 := by
  induction m with
  | nil => simp [mapSet, sumQty]
  | cons h1 t ih =>
    obtain ⟨k1, v1⟩ := h1
    rw [mapLookup] at h
    split_ifs at h with hc
    rw [mapSet]
    split_ifs with hc1
    · simp only [sumQty, List.map_cons, List.sum_cons]
      ring
    · simp only [sumQty, List.map_cons, List.sum_cons] at ih ⊢
      rw [ih h]
      ring

theorem sumQty_mapSet_some (m : BookSide) (k : ℚ) (v old : ℚ × String)
    (hs : mapSorted m) (h : mapLookup m k = some old) :
    sumQty (mapSet m k v) = sumQty m + v.1 - old.1 := by
  induction m with
  | nil => simp [mapLookup] at h
  | cons h1 t ih =>
    obtain ⟨k1, v1⟩ := h1
    rw [mapSorted, List.pairwise_cons] at hs
    obtain ⟨hhead, htail⟩ := hs
    rw [mapLookup] at h
    split_ifs at h with hc
    · simp only [Option.some.injEq] at h
      rw [mapSet, if_neg (by rw [hc]; exact lt_irrefl k1), if_pos hc]
      simp only [sumQty, List.map_cons, List.sum_cons]
      rw [← h]
      ring
    · have hmem := mapLookup_some_mem t k old h
      have hk1k : k1 < k := hhead _ hmem
      rw [mapSet, if_neg (by exact fun hcon => absurd (hcon.trans hk1k) (lt_irrefl k)),
        if_neg hc]
      simp only [sumQty, List.map_cons, List.sum_cons] at ih ⊢
      rw [ih htail h]
      ring

theorem aggInsert_sorted (acc : BookSide) (k : ℚ) (vs : ℚ × String)
    (h : mapSorted acc) : mapSorted (aggInsert acc k vs) := by
  rw [aggInsert]
  cases mapLookup acc k <;> exact mapSet_sorted _ _ _ h

theorem sumQty_aggInsert (acc : BookSide) (k : ℚ) (vs : ℚ × String)
    (h : mapSorted acc) : sumQty (aggInsert acc k vs) = sumQty acc + vs.1 := by
  rw [aggInsert]
  cases hl : mapLookup acc k with
  | none => exact sumQty_mapSet_none acc k vs hl
  | some old =>
    rw [sumQty_mapSet_some acc k _ old h hl]
    ring

theorem reagg_aux (tick : ℚ) (m : List (ℚ × (ℚ × String))) :
    ∀ acc : BookSide, mapSorted acc →
      mapSorted (m.foldl (fun a e => aggInsert a (round_to_tick_size tick e.1) e.2) acc) ∧
      sumQty (m.foldl (fun a e => aggInsert a (round_to_tick_size tick e.1) e.2) acc)
        = sumQty acc + sumQty m := by
  induction m with
  | nil =>
    intro acc h
    simp [sumQty, h]
  | cons e t ih =>
    intro acc h
    simp only [List.foldl_cons]
    have hstep := ih (aggInsert acc (round_to_tick_size tick e.1) e.2)
      (aggInsert_sorted _ _ _ h)
    refine ⟨hstep.1, ?_⟩
    rw [hstep.2, sumQty_aggInsert _ _ _ h]
    simp only [sumQty, List.map_cons, List.sum_cons]
    ring

/-- Re-aggregation preserves the total quantity of a side. -/
theorem reaggSide_sum (tick : ℚ) (m : BookSide) : sumQty (reaggSide tick m) = sumQty m := by
  have h := (reagg_aux tick m [] (by simp [mapSorted])).2
  rw [reaggSide, h]
  simp [sumQty]

unseal Rat.mul Rat.add Rat.sub Rat.inv in
/-- C6 counterexample: with auto-print enabled, `set_tick_size` ends in
`print_orderbook`, whose stale-bid sweep removes the bid at price 1 (below
`0.95 · 10`), so the bid-side total quantity drops from 6 to 1. -/
theorem c6_counterexample :
    ¬ (sumQty (set_tick_size true ⟨[(1, (5, "API")), (10, (1, "API"))], [], 0, 1/100⟩ (1/10)).bids
        = sumQty [(1, ((5 : ℚ), "API")), (10, ((1 : ℚ), "API"))]) := by
  decide

unseal Rat.mul Rat.add Rat.sub Rat.inv in
/-- C6 amended: the re-aggregation of `set_tick_size` preserves the total
quantity of each side — exactly so for the ask side, and for the bid side
whenever auto-print is disabled, the stale-bid sweep of the final
`print_orderbook()` call being the only mutation that can break it; the
concrete example `{10.00→1, 10.01→2, 10.02→3}` at tick 0.1 becomes `{10.00→6}`. -/
theorem c6_amended_reaggregation_preserves_totals (b : Book) (t : ℚ)
    (hv : isValidTick t = true) :
    sumQty (set_tick_size false b t).bids = sumQty b.bids ∧
    sumQty (set_tick_size false b t).asks = sumQty b.asks ∧
    sumQty (set_tick_size true b t).asks = sumQty b.asks ∧
    (set_tick_size true
        ⟨[(10, (1, "API")), (1001/100, (2, "API")), (1002/100, (3, "API"))], [], 0, 1/100⟩
        (1/10)).bids
      = [(10, (6, "API"))] := by
  refine ⟨?_, ?_, ?_, by decide⟩
  · rw [set_tick_size, if_pos hv, print_orderbook]
    simp only [Bool.false_eq_true, if_false]
    exact reaggSide_sum t b.bids
  · rw [set_tick_size, if_pos hv, print_orderbook]
    simp only [Bool.false_eq_true, if_false]
    exact reaggSide_sum t b.asks
  · rw [set_tick_size, if_pos hv, print_orderbook]
    simp only [if_true]
    exact reaggSide_sum t b.asks

unseal Rat.mul Rat.add Rat.sub Rat.inv in
/-- Witness for C6 at tick 0.1 on a two-level bid book. -/
theorem c6_amended_reaggregation_preserves_totals_witness :
    isValidTick (1/10) = true ∧
    sumQty (set_tick_size false ⟨[(1, (5, "API")), (10, (1, "API"))], [], 0, 1/100⟩ (1/10)).bids
      = sumQty [(1, ((5 : ℚ), "API")), (10, ((1 : ℚ), "API"))] :=
  ⟨by decide,
    (c6_amended_reaggregation_preserves_totals
      ⟨[(1, (5, "API")), (10, (1, "API"))], [], 0, 1/100⟩ (1/10) (by decide)).1⟩

/-! ## Stale-bid sweep (C8) -/

theorem le_keysMaxFrom (m : BookSide) : ∀ acc : ℚ, acc ≤ keysMaxFrom acc m := by
  induction m with
  | nil => intro acc; exact le_refl acc
  | cons e t ih =>
    intro acc
    rw [keysMaxFrom]
    exact le_trans (le_max_left acc e.1) (ih (max acc e.1))

theorem mem_le_keysMaxFrom (m : BookSide) :
    ∀ (acc : ℚ) (e : ℚ × (ℚ × String)), e ∈ m → e.1 ≤ keysMaxFrom acc m := by
  induction m with
  | nil => intro acc e he; simp at he
  | cons e1 t ih =>
    intro acc e he
    rw [keysMaxFrom]
    rcases List.mem_cons.mp he with he2 | he2
    · rw [he2]
      exact le_trans (le_max_right acc e1.1) (le_keysMaxFrom t (max acc e1.1))
    · exact ih (max acc e1.1) e he2

theorem keysMaxFrom_cases (m : BookSide) :
    ∀ acc : ℚ, keysMaxFrom acc m = acc ∨ ∃ e ∈ m, keysMaxFrom acc m = e.1 := by
  induction m with
  | nil => intro acc; left; rfl
  | cons e1 t ih =>
    intro acc
    rw [keysMaxFrom]
    rcases ih (max acc e1.1) with h | ⟨e, hem, heq⟩
    · rcases max_choice acc e1.1 with hm | hm
      · left; rw [h, hm]
      · right
        exact ⟨e1, List.mem_cons_self _ _, by rw [h, hm]⟩
    · right
      exact ⟨e, List.mem_cons_of_mem _ hem, heq⟩

theorem keysMaxFrom_le (m : BookSide) :
    ∀ (acc bnd : ℚ), acc ≤ bnd → (∀ e ∈ m, e.1 ≤ bnd) → keysMaxFrom acc m ≤ bnd := by
  induction m with
  | nil => intro acc bnd h1 _; exact h1
  | cons e1 t ih =>
    intro acc bnd h1 h2
    rw [keysMaxFrom]
    exact ih (max acc e1.1) bnd (max_le h1 (h2 e1 (List.mem_cons_self _ _)))
      (fun e he => h2 e (List.mem_cons_of_mem _ he))

/-- When `best_bid > 0`, the sweep keeps the best bid (so `best_bid` is
unchanged) and removes exactly the bids strictly below `0.95 · best_bid`. -/
theorem staleBidSweep_spec (m : BookSide) (hpos : 0 < bestBidOf m) :
    bestBidOf (staleBidSweep m) = bestBidOf m ∧
    ∀ e ∈ staleBidSweep m, ¬ (e.1 < bestBidOf m * (95/100)) := by
  rw [staleBidSweep, if_pos hpos]
  constructor
  · apply le_antisymm
    · apply keysMaxFrom_le _ _ _ (le_of_lt hpos)
      intro e he
      exact mem_le_keysMaxFrom m 0 e (List.mem_filter.mp he).1
    · rcases keysMaxFrom_cases m 0 with h | ⟨e, hem, heq⟩
      · rw [bestBidOf, h] at hpos
        exact absurd hpos (lt_irrefl 0)
      · have hbest : bestBidOf m = e.1 := heq
        have hkeep : e ∈ m.filter (fun e => decide (¬ e.1 < bestBidOf m * (95/100))) := by
          refine List.mem_filter.mpr ⟨hem, ?_⟩
          rw [decide_eq_true_iff]
          intro hcon
          rw [hbest] at hcon hpos
          linarith
        calc bestBidOf m = e.1 := hbest
          _ ≤ _ := mem_le_keysMaxFrom _ 0 e hkeep
  · intro e he
    have h2 := (List.mem_filter.mp he).2
    rw [decide_eq_true_iff] at h2
    exact h2

/-- After the sweep inside `print_orderbook` with auto-print enabled, no bid
sits strictly below `0.95` times the (unchanged) best bid. -/
theorem print_orderbook_no_stale (bk : Book) :
    0 < bestBidOf (print_orderbook true bk).bids →
    ∀ e ∈ (print_orderbook true bk).bids,
      ¬ (e.1 < bestBidOf (print_orderbook true bk).bids * (95/100)) := by
  simp only [print_orderbook, if_true]
  intro hpos e he
  by_cases h0 : 0 < bestBidOf bk.bids
  · have hs := staleBidSweep_spec bk.bids h0
    rw [hs.1]
    rw [hs.1] at hpos
    exact hs.2 e he
  · rw [staleBidSweep, if_neg h0] at hpos
    exact absurd hpos h0

unseal Rat.mul Rat.add Rat.sub Rat.inv in
/-- C8 counterexample: with auto-print disabled, `print_orderbook` returns
before the sweep, so after a snapshot install the bid at price 1 remains even
though `1 < 0.95 · 10`. -/
theorem c8_counterexample :
    0 < bestBidOf (process_api_snapshot_full false ⟨[], [], 0, 1/100⟩
        ⟨100, [(1, 1), (10, 1)], []⟩).bids ∧
    ((1 : ℚ), ((1 : ℚ), "API")) ∈ (process_api_snapshot_full false ⟨[], [], 0, 1/100⟩
        ⟨100, [(1, 1), (10, 1)], []⟩).bids ∧
    (1 : ℚ) < bestBidOf (process_api_snapshot_full false ⟨[], [], 0, 1/100⟩
        ⟨100, [(1, 1), (10, 1)], []⟩).bids * (95/100) := by
  decide

/-- C8 amended: provided auto-print is enabled (the sweep lives in
`print_orderbook`, which returns before it otherwise), after an applied diff
or a snapshot install with `best_bid > 0`, no stored bid is priced strictly
below `0.95 · best_bid`. -/
theorem c8_amended_sweep_only_when_printing (b : Book) (d : DepthDiff)
    (b2 : Book) (s : Snapshot) :
    ((process_ws_update_full true b d).1 = WsOutcome.applied →
      0 < bestBidOf (process_ws_update_full true b d).2.bids →
      ∀ e ∈ (process_ws_update_full true b d).2.bids,
        ¬ (e.1 < bestBidOf (process_ws_update_full true b d).2.bids * (95/100))) ∧
    (0 < bestBidOf (process_api_snapshot_full true b2 s).bids →
      ∀ e ∈ (process_api_snapshot_full true b2 s).bids,
        ¬ (e.1 < bestBidOf (process_api_snapshot_full true b2 s).bids * (95/100))) := by
  constructor
  · intro happ
    rw [process_ws_update_full] at happ ⊢
    rcases ho : (process_ws_update b d).1 with _ | _ | _ <;>
      simp only [ho] at happ ⊢
    · exact absurd happ (by simp)
    · exact print_orderbook_no_stale (process_ws_update b d).2
    · exact absurd happ (by simp)
  · exact print_orderbook_no_stale (process_api_snapshot b2 s)

unseal Rat.mul Rat.add Rat.sub Rat.inv in
/-- Witness for C8 on an applied diff carrying a stale bid: price 9 is below
`0.95 · 10`, the sweep removes it, and every kept level satisfies the bound. -/
theorem c8_amended_sweep_only_when_printing_witness :
    (process_ws_update_full true ⟨[], [], 100, 1/100⟩
        ⟨101, 103, [(10, 1), (9, 2)], []⟩).1 = WsOutcome.applied ∧
    0 < bestBidOf (process_ws_update_full true ⟨[], [], 100, 1/100⟩
        ⟨101, 103, [(10, 1), (9, 2)], []⟩).2.bids ∧
    ∀ e ∈ (process_ws_update_full true ⟨[], [], 100, 1/100⟩
        ⟨101, 103, [(10, 1), (9, 2)], []⟩).2.bids,
      ¬ (e.1 < bestBidOf (process_ws_update_full true ⟨[], [], 100, 1/100⟩
        ⟨101, 103, [(10, 1), (9, 2)], []⟩).2.bids * (95/100)) :=
  ⟨by decide, by decide,
    (c8_amended_sweep_only_when_printing ⟨[], [], 100, 1/100⟩
        ⟨101, 103, [(10, 1), (9, 2)], []⟩ ⟨[], [], 0, 1⟩ ⟨0, [], []⟩).1
      (by decide) (by decide)⟩

/-! ## Liquidity tracker, dual-mode variant (`src/liquidity_tracker_dual_mode.cpp`,
`src/liquidity_tracker.hpp`)

The accumulation and closure logic of `onTrade` is identical in
`src/liquidity_tracker.cpp`; the dual-mode file is the variant named by the
claims and is the one embedded here. Callback slots are modelled as always
installed: an invocation becomes an emitted `LTEvent`. -/

/-- The binary trade record (fields fixed by `Serialization::parse_trade_json`
and the tracker call sites); `is_buy()` is the stored negation of
`is_buyer_maker` (serialization.cpp line 45). -/
structure TradeMessageBinary where
  event_time : ℕ
  trade_id : ℕ
  price : ℚ
  quantity : ℚ
  buyer_order_id : ℕ
  seller_order_id : ℕ
  trade_time : ℕ
  timestamp_ns : ℕ
  is_buyer_maker : Bool
  deriving Repr, DecidableEq

/-- The `is_buy()` flag accessor: a trade is a buy iff the buyer was not the
maker. -/
def TradeMessageBinary.isBuyTrade (t : TradeMessageBinary) : Bool := !t.is_buyer_maker

/-- Constructor arguments of `LiquidityTracker` (liquidity_tracker.hpp lines
31-36); `depth_levels_report` is unused by the dual-mode book path. -/
structure LTConfig where
  buy_bucket_size : ℚ
  sell_bucket_size : ℚ
  cancel_bucket_size : ℚ
  depth_levels_track : ℕ
  tick_size : ℚ
  deriving Repr, DecidableEq

/-- The default constructor arguments (liquidity_tracker.hpp lines 31-36). -/
def cfgDefault : LTConfig := ⟨1000000, 1000000, 500000, 30, 1/100⟩

/-- The mutable members of `LiquidityTracker` (dual-mode variant). -/
structure LTState where
  buy_accum : ℚ
  sell_accum : ℚ
  buy_buyflow : ℚ
  buy_sellflow : ℚ
  sell_sellflow : ℚ
  sell_buyflow : ℚ
  buy_start_ts : ℕ
  sell_start_ts : ℕ
  order_buy_accum : ℚ
  order_sell_accum : ℚ
  order_buy_start_ts : ℕ
  order_sell_start_ts : ℕ
  cancel_buy_accum : ℚ
  cancel_sell_accum : ℚ
  cancel_buy_total : ℚ
  cancel_sell_total : ℚ
  cancel_buy_start_ts : ℕ
  cancel_sell_start_ts : ℕ
  last_bids_volume : List (ℚ × ℚ)
  last_asks_volume : List (ℚ × ℚ)
  deriving Repr, DecidableEq

/-- The zero-initialized tracker state (constructor, dual-mode lines 23-57). -/
def LTState.init : LTState :=
  ⟨0, 0, 0, 0, 0, 0, 0, 0, 0, 0, 0, 0, 0, 0, 0, 0, 0, 0, [], []⟩

/-- A callback invocation of the tracker. -/
inductive LTEvent where
  | buyBucket (duration_ns : ℕ) (size ratio : ℚ)
  | sellBucket (duration_ns : ℕ) (size ratio : ℚ)
  | cancelBuy (duration_ns : ℕ) (size ratio : ℚ)
  | cancelSell (duration_ns : ℕ) (size ratio : ℚ)
  | orderFlowBuy (duration_ns : ℕ) (size ratio : ℚ)
  | orderFlowSell (duration_ns : ℕ) (size ratio : ℚ)
  | liqChange (price volume_delta : ℚ) (ts : ℕ) (is_bid : Bool)
  deriving Repr, DecidableEq

/-- Embeds `LiquidityTracker::round_price` (dual-mode lines 220-223). -/
def round_price (tick p : ℚ) : ℚ :=
  if tick ≤ 0 then p else (roundHalfAway (p / tick) : ℚ) * tick

/-- Embeds `LiquidityTracker::onTrade` of the dual-mode variant (lines
93-152): route the notional to the same-side bucket, and close (emit + zero
all bucket fields) when the accumulator reaches the bucket size. The flow
ratio divides in `ℚ` (the `double` quotient is diagnostic output only and is
asserted by no claim). -/
def onTrade (cfg : LTConfig) (st : LTState) (t : TradeMessageBinary) :
    LTState × List LTEvent :=
  let n := t.price * t.quantity
  if t.isBuyTrade then
    let st1 := { st with buy_start_ts := if st.buy_start_ts = 0 then t.timestamp_ns else st.buy_start_ts }
    let st2 := { st1 with buy_accum := st1.buy_accum + n, buy_buyflow := st1.buy_buyflow + n }
    if st2.buy_accum ≥ cfg.buy_bucket_size then
      ({ st2 with buy_accum := 0, buy_buyflow := 0, buy_sellflow := 0, buy_start_ts := 0 },
        [.buyBucket (t.timestamp_ns - st2.buy_start_ts) cfg.buy_bucket_size
          (st2.buy_buyflow / (st2.buy_buyflow + st2.buy_sellflow))])
    else (st2, [])
  else
    let st1 := { st with sell_start_ts := if st.sell_start_ts = 0 then t.timestamp_ns else st.sell_start_ts }
    let st2 := { st1 with sell_accum := st1.sell_accum + n, sell_sellflow := st1.sell_sellflow + n }
    if st2.sell_accum ≥ cfg.sell_bucket_size then
      ({ st2 with sell_accum := 0, sell_sellflow := 0, sell_buyflow := 0, sell_start_ts := 0 },
        [.sellBucket (t.timestamp_ns - st2.sell_start_ts) cfg.sell_bucket_size
          (st2.sell_sellflow / (st2.sell_sellflow + st2.sell_buyflow))])
    else (st2, [])

/-- The consumer loop: one `onTrade` per queued trade, emissions concatenated. -/
def runTrades (cfg : LTConfig) (st : LTState) : List TradeMessageBinary → LTState × List LTEvent
  | [] => (st, [])
  | t :: ts =>
    let r := onTrade cfg st t
    let rest := runTrades cfg r.1 ts
    (rest.1, r.2 ++ rest.2)

/-- Recognizes a buy-bucket closure among the emitted events. -/
def LTEvent.isBuyBucketClosure : LTEvent → Bool
  | .buyBucket _ _ _ => true
  | _ => false

/-- Number of buy-bucket closures among the emitted events. -/
def countBuyClosures (evs : List LTEvent) : ℕ :=
  (evs.filter LTEvent.isBuyBucketClosure).length

/-- Embeds `LiquidityTracker::processCancelVolumeInternal` (dual-mode lines
351-395). -/
def processCancelVolumeInternal (cfg : LTConfig) (st : LTState) (is_buy : Bool)
    (cancel_volume : ℚ) (ts : ℕ) : LTState × List LTEvent :=
  match is_buy with
  | true =>
    let st1 := { st with cancel_buy_start_ts := if st.cancel_buy_start_ts = 0 then ts else st.cancel_buy_start_ts }
    let st2 := { st1 with
      cancel_buy_accum := st1.cancel_buy_accum + cancel_volume
      cancel_buy_total := st1.cancel_buy_total + cancel_volume }
    if st2.cancel_buy_accum ≥ cfg.cancel_bucket_size then
      ({ st2 with cancel_buy_accum := 0, cancel_buy_total := 0, cancel_buy_start_ts := 0 },
        [.cancelBuy (ts - st2.cancel_buy_start_ts) cfg.cancel_bucket_size
          (st2.cancel_buy_total / cfg.cancel_bucket_size)])
    else (st2, [])
  | false =>
    let st1 := { st with cancel_sell_start_ts := if st.cancel_sell_start_ts = 0 then ts else st.cancel_sell_start_ts }
    let st2 := { st1 with
      cancel_sell_accum := st1.cancel_sell_accum + cancel_volume
      cancel_sell_total := st1.cancel_sell_total + cancel_volume }
    if st2.cancel_sell_accum ≥ cfg.cancel_bucket_size then
      ({ st2 with cancel_sell_accum := 0, cancel_sell_total := 0, cancel_sell_start_ts := 0 },
        [.cancelSell (ts - st2.cancel_sell_start_ts) cfg.cancel_bucket_size
          (st2.cancel_sell_total / cfg.cancel_bucket_size)])
    else (st2, [])

/-- One iteration of the bid-analysis loop of `detectLiquidityChanges`
(dual-mode lines 238-275) on the running `(state, events, total_bid_additions)`
accumulator: inside the `1e-8` deadband nothing happens; an increase feeds the
additions total; a decrease larger than `0.3 · prev` (strictly, and with
`prev > 0`) credits `|Δ · price|` to the buy-cancel bucket; every change also
emits a `LiquidityChange`. -/
def analyzeBidLevel (cfg : LTConfig) (ts : ℕ) (prev_bids : List (ℚ × ℚ))
    (acc : LTState × List LTEvent × ℚ) (e : ℚ × ℚ) : LTState × List LTEvent × ℚ :=
  let prev_volume := (mapLookup prev_bids e.1).getD 0
  if |e.2 - prev_volume| > 1/100000000 then
    let volume_delta := e.2 - prev_volume
    let value_delta := volume_delta * e.1
    if volume_delta > 0 then
      (acc.1, acc.2.1 ++ [.liqChange e.1 volume_delta ts true], acc.2.2 + value_delta)
    else
      if volume_delta < -prev_volume * (3/10) ∧ prev_volume > 0 then
        let r := processCancelVolumeInternal cfg acc.1 true |value_delta| ts
        (r.1, acc.2.1 ++ r.2 ++ [.liqChange e.1 volume_delta ts true], acc.2.2)
      else
        (acc.1, acc.2.1 ++ [.liqChange e.1 volume_delta ts true], acc.2.2)
  else acc

/-- The ask-analysis loop (dual-mode lines 278-315), symmetric to the bid one
with the sell-cancel bucket. -/
def analyzeAskLevel (cfg : LTConfig) (ts : ℕ) (prev_asks : List (ℚ × ℚ))
    (acc : LTState × List LTEvent × ℚ) (e : ℚ × ℚ) : LTState × List LTEvent × ℚ :=
  let prev_volume := (mapLookup prev_asks e.1).getD 0
  if |e.2 - prev_volume| > 1/100000000 then
    let volume_delta := e.2 - prev_volume
    let value_delta := volume_delta * e.1
    if volume_delta > 0 then
      (acc.1, acc.2.1 ++ [.liqChange e.1 volume_delta ts false], acc.2.2 + value_delta)
    else
      if volume_delta < -prev_volume * (3/10) ∧ prev_volume > 0 then
        let r := processCancelVolumeInternal cfg acc.1 false |value_delta| ts
        (r.1, acc.2.1 ++ r.2 ++ [.liqChange e.1 volume_delta ts false], acc.2.2)
      else
        (acc.1, acc.2.1 ++ [.liqChange e.1 volume_delta ts false], acc.2.2)
  else acc

/-- The order-flow bucket update for bid additions (dual-mode lines 318-332). -/
def orderFlowBuyStep (cfg : LTConfig) (st : LTState) (ts : ℕ) (adds : ℚ) :
    LTState × List LTEvent :=
  let st1 := { st with order_buy_start_ts := if st.order_buy_start_ts = 0 then ts else st.order_buy_start_ts }
  let st2 := { st1 with order_buy_accum := st1.order_buy_accum + adds }
  if st2.order_buy_accum ≥ cfg.buy_bucket_size then
    ({ st2 with order_buy_accum := 0, order_buy_start_ts := 0 },
      [.orderFlowBuy (ts - st2.order_buy_start_ts) cfg.buy_bucket_size 1])
  else (st2, [])

/-- The order-flow bucket update for ask additions (dual-mode lines 334-348). -/
def orderFlowSellStep (cfg : LTConfig) (st : LTState) (ts : ℕ) (adds : ℚ) :
    LTState × List LTEvent :=
  let st1 := { st with order_sell_start_ts := if st.order_sell_start_ts = 0 then ts else st.order_sell_start_ts }
  let st2 := { st1 with order_sell_accum := st1.order_sell_accum + adds }
  if st2.order_sell_accum ≥ cfg.sell_bucket_size then
    ({ st2 with order_sell_accum := 0, order_sell_start_ts := 0 },
      [.orderFlowSell (ts - st2.order_sell_start_ts) cfg.sell_bucket_size 1])
  else (st2, [])

/-- Embeds `LiquidityTracker::detectLiquidityChanges` (dual-mode lines
226-349): analyze the current bid entries against the previous map, then the
asks, then feed the positive addition totals into the order-flow buckets. -/
def detectLiquidityChanges (cfg : LTConfig) (st : LTState) (ts : ℕ)
    (prev_bids prev_asks : List (ℚ × ℚ)) : LTState × List LTEvent :=
  let rb := st.last_bids_volume.foldl (analyzeBidLevel cfg ts prev_bids) (st, [], 0)
  let ra := st.last_asks_volume.foldl (analyzeAskLevel cfg ts prev_asks) (rb.1, rb.2.1, 0)
  let afterBid :=
    if rb.2.2 > 0 then
      let r := orderFlowBuyStep cfg ra.1 ts rb.2.2
      (r.1, ra.2.1 ++ r.2)
    else (ra.1, ra.2.1)
  if ra.2.2 > 0 then
    let r := orderFlowSellStep cfg afterBid.1 ts ra.2.2
    (r.1, afterBid.2 ++ r.2)
  else afterBid

/-- Embeds `LiquidityTracker::onOrderBookUpdate` (dual-mode lines 63-90):
remember the previous per-price volume maps, rebuild them from the first
`depth_levels_track` levels of each side (prices rounded by the tracker's own
tick), then run change detection. -/
def onOrderBookUpdate (cfg : LTConfig) (st : LTState) (ts : ℕ)
    (bids asks : List (ℚ × ℚ)) : LTState × List LTEvent :=
  let prev_bids := st.last_bids_volume
  let prev_asks := st.last_asks_volume
  let newBids := (bids.take cfg.depth_levels_track).foldl
    (fun m l => mapSet m (round_price cfg.tick_size l.1) l.2) []
  let newAsks := (asks.take cfg.depth_levels_track).foldl
    (fun m l => mapSet m (round_price cfg.tick_size l.1) l.2) []
  let st1 := { st with last_bids_volume := newBids, last_asks_volume := newAsks }
  detectLiquidityChanges cfg st1 ts prev_bids prev_asks

/-! ## C2: trade-bucket closure counting -/

/-- The buy-bucket recursion of `onTrade` projected to the accumulator:
final accumulator and number of closures over a list of notionals. The
overshoot above the threshold is discarded on close (`buy_accum_ = 0.0`). -/
def buyFold (T : ℚ) : ℚ → List ℚ → ℚ × ℕ
  | a, [] => (a, 0)
  | a, n :: ns =>
    if a + n ≥ T then
      let r := buyFold T 0 ns
      (r.1, r.2 + 1)
    else buyFold T (a + n) ns

/-- Holds when every closure happens with the accumulator exactly at the
threshold, i.e. no overshoot is ever discarded. -/
def buyNoOvershoot (T : ℚ) : ℚ → List ℚ → Bool
  | _, [] => true
  | a, n :: ns =>
    if a + n ≥ T then decide (a + n = T) && buyNoOvershoot T 0 ns
    else buyNoOvershoot T (a + n) ns

theorem countBuyClosures_append (a b : List LTEvent) :
    countBuyClosures (a ++ b) = countBuyClosures a + countBuyClosures b := by
  simp [countBuyClosures, List.filter_append]

theorem onTrade_buy_proj (cfg : LTConfig) (st : LTState) (t : TradeMessageBinary)
    (hb : t.isBuyTrade = true) :
    (onTrade cfg st t).1.buy_accum
      = (if st.buy_accum + t.price * t.quantity ≥ cfg.buy_bucket_size then 0
         else st.buy_accum + t.price * t.quantity) ∧
    countBuyClosures (onTrade cfg st t).2
      = (if st.buy_accum + t.price * t.quantity ≥ cfg.buy_bucket_size then 1 else 0) := by
  simp only [onTrade, hb, if_true]
  split_ifs <;> exact ⟨rfl, rfl⟩

theorem runTrades_buy_proj (cfg : LTConfig) (ts : List TradeMessageBinary) :
    ∀ st : LTState, (∀ t ∈ ts, t.isBuyTrade = true) →
    (runTrades cfg st ts).1.buy_accum
      = (buyFold cfg.buy_bucket_size st.buy_accum (ts.map fun t => t.price * t.quantity)).1 ∧
    countBuyClosures (runTrades cfg st ts).2
      = (buyFold cfg.buy_bucket_size st.buy_accum (ts.map fun t => t.price * t.quantity)).2 := by
  induction ts with
  | nil =>
    intro st _
    exact ⟨rfl, rfl⟩
  | cons t ts ih =>
    intro st hb
    have hbt := hb t (List.mem_cons_self _ _)
    have hstep := onTrade_buy_proj cfg st t hbt
    have hrest := ih (onTrade cfg st t).1 (fun x hx => hb x (List.mem_cons_of_mem _ hx))
    have hrun1 : (runTrades cfg st (t :: ts)).1 = (runTrades cfg (onTrade cfg st t).1 ts).1 := rfl
    have hrun2 : (runTrades cfg st (t :: ts)).2
        = (onTrade cfg st t).2 ++ (runTrades cfg (onTrade cfg st t).1 ts).2 := rfl
    by_cases h : st.buy_accum + t.price * t.quantity ≥ cfg.buy_bucket_size
    · have e1 : (onTrade cfg st t).1.buy_accum = 0 := by rw [hstep.1, if_pos h]
      have e2 : countBuyClosures (onTrade cfg st t).2 = 1 := by rw [hstep.2, if_pos h]
      have e3 : buyFold cfg.buy_bucket_size st.buy_accum
          ((t :: ts).map fun x => x.price * x.quantity)
          = ((buyFold cfg.buy_bucket_size 0 (ts.map fun x => x.price * x.quantity)).1,
             (buyFold cfg.buy_bucket_size 0 (ts.map fun x => x.price * x.quantity)).2 + 1) := by
        simp only [List.map_cons, buyFold]
        rw [if_pos h]
      refine ⟨?_, ?_⟩
      · rw [hrun1, hrest.1, e1, e3]
      · rw [hrun2, countBuyClosures_append, e2, hrest.2, e1, e3]
        exact Nat.add_comm 1 _
    · have e1 : (onTrade cfg st t).1.buy_accum = st.buy_accum + t.price * t.quantity := by
        rw [hstep.1, if_neg h]
      have e2 : countBuyClosures (onTrade cfg st t).2 = 0 := by rw [hstep.2, if_neg h]
      have e3 : buyFold cfg.buy_bucket_size st.buy_accum
          ((t :: ts).map fun x => x.price * x.quantity)
          = buyFold cfg.buy_bucket_size (st.buy_accum + t.price * t.quantity)
              (ts.map fun x => x.price * x.quantity) := by
        simp only [List.map_cons, buyFold]
        rw [if_neg h]
      refine ⟨?_, ?_⟩
      · rw [hrun1, hrest.1, e1, e3]
      · rw [hrun2, countBuyClosures_append, e2, hrest.2, e1, e3]
        omega

theorem buyFold_le_bound (T : ℚ) (ns : List ℚ) :
    ∀ a : ℚ, 0 ≤ a → (∀ n ∈ ns, 0 ≤ n) →
      0 ≤ (buyFold T a ns).1 ∧
      T * ((buyFold T a ns).2 : ℚ) + (buyFold T a ns).1 ≤ a + ns.sum := by
  induction ns with
  | nil =>
    intro a ha _
    refine ⟨ha, ?_⟩
    simp [buyFold]
  | cons n ns ih =>
    intro a ha hn
    have hn0 : 0 ≤ n := hn n (List.mem_cons_self _ _)
    have hntail : ∀ m ∈ ns, 0 ≤ m := fun m hm => hn m (List.mem_cons_of_mem _ hm)
    simp only [buyFold, List.sum_cons]
    split_ifs with h
    · have hr := ih 0 (le_refl 0) hntail
      refine ⟨hr.1, ?_⟩
      push_cast
      have := hr.2
      linarith
    · have hr := ih (a + n) (by linarith) hntail
      refine ⟨hr.1, ?_⟩
      have := hr.2
      linarith

theorem buyFold_exact (T : ℚ) (hT : 0 < T) (ns : List ℚ) :
    ∀ a : ℚ, 0 ≤ a → a < T → (∀ n ∈ ns, 0 ≤ n) →
      buyNoOvershoot T a ns = true →
      T * ((buyFold T a ns).2 : ℚ) + (buyFold T a ns).1 = a + ns.sum ∧
      0 ≤ (buyFold T a ns).1 ∧ (buyFold T a ns).1 < T := by
  induction ns with
  | nil =>
    intro a ha haT _ _
    refine ⟨?_, ha, haT⟩
    simp [buyFold]
  | cons n ns ih =>
    intro a ha haT hn hno
    have hntail : ∀ m ∈ ns, 0 ≤ m := fun m hm => hn m (List.mem_cons_of_mem _ hm)
    simp only [buyFold, buyNoOvershoot, List.sum_cons] at hno ⊢
    split_ifs with h
    · rw [if_pos h, Bool.and_eq_true, decide_eq_true_iff] at hno
      have hr := ih 0 (le_refl 0) hT hntail hno.2
      refine ⟨?_, hr.2.1, hr.2.2⟩
      push_cast
      have heq := hr.1
      have han : a + n = T := hno.1
      linarith
    · rw [if_neg h] at hno
      have hn0 : 0 ≤ n := hn n (List.mem_cons_self _ _)
      have hr := ih (a + n) (by linarith) (not_le.mp h) hntail hno
      exact ⟨by linarith [hr.1], hr.2.1, hr.2.2⟩

unseal Rat.mul Rat.add Rat.sub Rat.inv in
/-- C2 counterexample: threshold 10, buy trades of notional 15 and 5
(cumulative 20 = 2·threshold), yet only one buy-bucket closure is emitted:
the overshoot above the threshold is discarded when the bucket resets. -/
theorem c2_counterexample :
    (∀ t ∈ ([⟨0, 0, 1, 15, 0, 0, 0, 0, false⟩, ⟨0, 0, 1, 5, 0, 0, 0, 0, false⟩] :
        List TradeMessageBinary), t.isBuyTrade = true) ∧
    ((([⟨0, 0, 1, 15, 0, 0, 0, 0, false⟩, ⟨0, 0, 1, 5, 0, 0, 0, 0, false⟩] :
        List TradeMessageBinary).map fun t => t.price * t.quantity).sum = (2 : ℚ) * 10) ∧
    countBuyClosures (runTrades ⟨10, 10, 10, 30, 1/100⟩ LTState.init
        [⟨0, 0, 1, 15, 0, 0, 0, 0, false⟩, ⟨0, 0, 1, 5, 0, 0, 0, 0, false⟩]).2 = 1 ∧
    ¬ countBuyClosures (runTrades ⟨10, 10, 10, 30, 1/100⟩ LTState.init
        [⟨0, 0, 1, 15, 0, 0, 0, 0, false⟩, ⟨0, 0, 1, 5, 0, 0, 0, 0, false⟩]).2 = 2 := by
  constructor
  · decide
  · refine ⟨?_, ?_, ?_⟩ <;> decide

/-- C2 amended: for buy trades of nonnegative notional summing to
`k · threshold` (threshold positive), the tracker emits at most `k`
buy-bucket closures, and exactly `k` when no closure overshoots the
threshold (each close discards the accumulated excess). -/
theorem c2_amended_closures (cfg : LTConfig) (ts : List TradeMessageBinary) (k : ℕ)
    (hT : 0 < cfg.buy_bucket_size)
    (hbuy : ∀ t ∈ ts, t.isBuyTrade = true ∧ 0 ≤ t.price * t.quantity)
    (hsum : (ts.map fun t => t.price * t.quantity).sum = (k : ℚ) * cfg.buy_bucket_size) :
    countBuyClosures (runTrades cfg LTState.init ts).2 ≤ k ∧
    (buyNoOvershoot cfg.buy_bucket_size 0 (ts.map fun t => t.price * t.quantity) = true →
      countBuyClosures (runTrades cfg LTState.init ts).2 = k) := by
  have hproj := runTrades_buy_proj cfg ts LTState.init (fun t ht => (hbuy t ht).1)
  have hinit : LTState.init.buy_accum = 0 := rfl
  rw [hinit] at hproj
  have hnn : ∀ n ∈ ts.map (fun t => t.price * t.quantity), 0 ≤ n := by
    intro n hn
    obtain ⟨t, ht, rfl⟩ := List.mem_map.mp hn
    exact (hbuy t ht).2
  constructor
  · rw [hproj.2]
    have hb := buyFold_le_bound cfg.buy_bucket_size
      (ts.map fun t => t.price * t.quantity) 0 (le_refl 0) hnn
    have h1 : cfg.buy_bucket_size * ((buyFold cfg.buy_bucket_size 0
        (ts.map fun t => t.price * t.quantity)).2 : ℚ)
        ≤ (k : ℚ) * cfg.buy_bucket_size := by
      have h2 := hb.2
      rw [hsum] at h2
      linarith [hb.1]
    have h3 : ((buyFold cfg.buy_bucket_size 0
        (ts.map fun t => t.price * t.quantity)).2 : ℚ) ≤ (k : ℚ) := by
      rw [mul_comm] at h1
      exact le_of_mul_le_mul_right h1 hT
    exact_mod_cast h3
  · intro hno
    rw [hproj.2]
    have hb := buyFold_exact cfg.buy_bucket_size hT
      (ts.map fun t => t.price * t.quantity) 0 (le_refl 0) hT hnn hno
    have heq := hb.1
    rw [hsum, zero_add] at heq
    rcases Nat.lt_trichotomy (buyFold cfg.buy_bucket_size 0
        (ts.map fun t => t.price * t.quantity)).2 k with h | h | h
    · exfalso
      have hc1 : ((buyFold cfg.buy_bucket_size 0
          (ts.map fun t => t.price * t.quantity)).2 : ℚ) + 1 ≤ (k : ℚ) := by
        exact_mod_cast Nat.succ_le_of_lt h
      have hm := mul_le_mul_of_nonneg_left hc1 (le_of_lt hT)
      have hflt := hb.2.2
      nlinarith
    · exact h
    · exfalso
      have hc1 : (k : ℚ) + 1 ≤ ((buyFold cfg.buy_bucket_size 0
          (ts.map fun t => t.price * t.quantity)).2 : ℚ) := by
        exact_mod_cast Nat.succ_le_of_lt h
      have hm := mul_le_mul_of_nonneg_left hc1 (le_of_lt hT)
      have hf0 := hb.2.1
      nlinarith

unseal Rat.mul Rat.add Rat.sub Rat.inv in
/-- Witness for C2: threshold 10, two buy trades of notional exactly 10 each:
no overshoot, so exactly 2 closures. -/
theorem c2_amended_closures_witness :
    0 < (10 : ℚ) ∧
    countBuyClosures (runTrades ⟨10, 10, 10, 30, 1/100⟩ LTState.init
        [⟨0, 0, 1, 10, 0, 0, 0, 0, false⟩, ⟨0, 0, 2, 5, 0, 0, 0, 0, false⟩]).2 = 2 :=
  ⟨by decide,
    (c2_amended_closures ⟨10, 10, 10, 30, 1/100⟩
        [⟨0, 0, 1, 10, 0, 0, 0, 0, false⟩, ⟨0, 0, 2, 5, 0, 0, 0, 0, false⟩] 2
        (by decide) (by decide) (by decide)).2 (by decide)⟩

/-! ## C7: cancel classification -/

unseal Rat.mul Rat.add Rat.sub Rat.inv in
/-- C7 counterexample: previous bid `(10, 10)`, next diff `(10, 7)`:
`Δ = 3 = 0.3 · 10` satisfies the claimed `Δ ≥ 0.3·prev` condition, yet the
code (strict `volume_delta < -prev·0.3`) classifies no cancel and credits
nothing into the cancel-buy bucket. -/
theorem c7_counterexample :
    ((10 : ℚ) - 7 ≥ (3/10) * 10 ∧ (0 : ℚ) < 10) ∧
    (onOrderBookUpdate cfgDefault
        (onOrderBookUpdate cfgDefault LTState.init 1 [(10, 10)] []).1
        2 [(10, 7)] []).1.cancel_buy_accum = 0 ∧
    ¬ (onOrderBookUpdate cfgDefault
        (onOrderBookUpdate cfgDefault LTState.init 1 [(10, 10)] []).1
        2 [(10, 7)] []).1.cancel_buy_accum = ((10 : ℚ) - 7) * 10 := by
  refine ⟨⟨?_, ?_⟩, ?_, ?_⟩ <;> decide

unseal Rat.mul Rat.add Rat.sub Rat.inv in
/-- C7 amended: a decreased bid level is classified as a cancel iff the change
clears the `1e-8` deadband, `Δ = prev − cur` satisfies the strict
`Δ > 0.3 · prev` (not `≥`), and `prev > 0`; in that case `|Δ · price|` is
credited to the cancel-buy bucket (which resets at its threshold). The
concrete `(10.00, 10) → (10.00, 2)` diff credits $80. -/
theorem c7_amended_cancel_strict (cfg : LTConfig) (ts : ℕ)
    (prev_bids : List (ℚ × ℚ)) (st : LTState) (evs : List LTEvent) (adds p v : ℚ) :
    ((analyzeBidLevel cfg ts prev_bids (st, evs, adds) (p, v)).1.cancel_buy_accum
      = (if |v - (mapLookup prev_bids p).getD 0| > 1/100000000 ∧
            v - (mapLookup prev_bids p).getD 0
              < -((mapLookup prev_bids p).getD 0) * (3/10) ∧
            0 < (mapLookup prev_bids p).getD 0
         then (if st.cancel_buy_accum + |(v - (mapLookup prev_bids p).getD 0) * p|
                  ≥ cfg.cancel_bucket_size
               then 0
               else st.cancel_buy_accum + |(v - (mapLookup prev_bids p).getD 0) * p|)
         else st.cancel_buy_accum)) ∧
    (onOrderBookUpdate cfgDefault
        (onOrderBookUpdate cfgDefault LTState.init 1 [(10, 10)] []).1
        2 [(10, 2)] []).1.cancel_buy_accum = 80 := by
  constructor
  · simp only [analyzeBidLevel]
    by_cases h1 : |v - (mapLookup prev_bids p).getD 0| > 1/100000000
    · rw [if_pos h1]
      by_cases h2 : v - (mapLookup prev_bids p).getD 0 > 0
      · rw [if_pos h2]
        have hnc : ¬ (|v - (mapLookup prev_bids p).getD 0| > 1/100000000 ∧
            v - (mapLookup prev_bids p).getD 0
              < -((mapLookup prev_bids p).getD 0) * (3/10) ∧
            0 < (mapLookup prev_bids p).getD 0) := by
          rintro ⟨_, hlt, hp⟩
          nlinarith
        rw [if_neg hnc]
      · rw [if_neg h2]
        by_cases h3 : v - (mapLookup prev_bids p).getD 0
            < -((mapLookup prev_bids p).getD 0) * (3/10) ∧
            (mapLookup prev_bids p).getD 0 > 0
        · rw [if_pos h3, if_pos ⟨h1, h3.1, h3.2⟩]
          simp only [processCancelVolumeInternal]
          by_cases h4 : st.cancel_buy_accum + |(v - (mapLookup prev_bids p).getD 0) * p|
              ≥ cfg.cancel_bucket_size
          · rw [if_pos h4, if_pos h4]
          · rw [if_neg h4, if_neg h4]
        · rw [if_neg h3]
          have hnc : ¬ (|v - (mapLookup prev_bids p).getD 0| > 1/100000000 ∧
              v - (mapLookup prev_bids p).getD 0
                < -((mapLookup prev_bids p).getD 0) * (3/10) ∧
              0 < (mapLookup prev_bids p).getD 0) :=
            fun hcon => h3 ⟨hcon.2.1, hcon.2.2⟩
          rw [if_neg hnc]
    · rw [if_neg h1]
      have hnc : ¬ (|v - (mapLookup prev_bids p).getD 0| > 1/100000000 ∧
          v - (mapLookup prev_bids p).getD 0
            < -((mapLookup prev_bids p).getD 0) * (3/10) ∧
          0 < (mapLookup prev_bids p).getD 0) :=
        fun hcon => h1 hcon.1
      rw [if_neg hnc]
  · decide

end Binance
